import Mathlib

set_option maxRecDepth 10000

set_option maxHeartbeats 1000000

/-!
Shallow embedding of the void-cluster analysis engine of this repository,
translated from `src/scripts/grok-personality-filter.c` and
`src/scripts/void-cluster-analyzer.c`: the character-level tokenizer with
blank-line paragraph detection, lexicon membership, the windowed
co-occurrence classifier, per-paragraph aggregation, the bounded hit log,
the per-term frequency table, and the z-test / normal-CDF statistics.

The open-addressed hash table of the C code (`HashSet`, 4096 slots, at most
a few hundred entries, linear probing, no deletion) implements exact
membership of the set of inserted lowercased words; it is modelled here as a
`List String` with `List.contains`, which has the same membership semantics.
-/

namespace VoidAnalysis

/-- Capacity limit `MAX_TOKENS` of grok-personality-filter.c (line 27). -/
def MAX_TOKENS : Nat := 2000000

/-- Capacity limit `MAX_WORD_LEN` of both C tools (word buffer size, line 28). -/
def MAX_WORD_LEN : Nat := 64

/-- Capacity limit `MAX_HIT_LOG` of grok-personality-filter.c (line 30). -/
def MAX_HIT_LOG : Nat := 8192

/-- Capacity limit `MAX_PARAGRAPHS` of grok-personality-filter.c (line 326). -/
def MAX_PARAGRAPHS : Nat := 4096

/-- Capacity limit `MAX_WORDLIST` of void-cluster-analyzer.c (line 22):
size of the per-term frequency table `cluster_hits`. -/
def MAX_WORDLIST : Nat := 512

/-- ASCII line feed, written `\n` in the C sources. -/
def LF : Char := Char.ofNat 10

/-- ASCII carriage return, written `\r` in the C sources. -/
def CR : Char := Char.ofNat 13

/-- ASCII apostrophe. -/
def APOS : Char := Char.ofNat 39

/-- Word-constituent characters, `is_word_char` in both C tools:
alphabetic, apostrophe or hyphen. -/
def is_word_char (c : Char) : Bool := c.isAlpha || c == APOS || c == '-'

/-- Token record of grok-personality-filter.c (`struct Token`, lines 35-41):
the lowercased word, the cached lexicon flags, the paragraph id and the byte
offset of the word start. -/
structure Token where
  word : String
  is_void : Bool
  is_personality : Bool
  para_id : Nat
  byte_offset : Nat
deriving DecidableEq, Repr, Inhabited

/-- State of the tokenizer loop of grok-personality-filter.c `main`
(lines 427-507): emitted tokens, the pending word buffer (capped at
`MAX_WORD_LEN - 1` characters), the list of closed paragraphs as
(start_token, end_token) pairs together with the start of the currently
open paragraph, the running paragraph id, `para_start`, the consecutive
newline counter and the byte position bookkeeping. In the C code the
overflow branch (`n_paragraphs` at `MAX_PARAGRAPHS - 1`) keeps rewriting
the end of the last open slot and never advances, which is exactly "leave
`closed` and `curStart` unchanged" here; the final end written is the
final token count, applied by `finalSections`. -/
structure TokState where
  toks : List Token
  word : List Char
  closed : List (Nat × Nat)
  curStart : Nat
  paraId : Nat
  paraStart : Nat
  newlines : Nat
  bytePos : Nat
  wordStart : Nat
deriving DecidableEq, Repr

/-- Initial tokenizer state (lines 427-435 of grok-personality-filter.c). -/
def initState : TokState := ⟨[], [], [], 0, 0, 0, 0, 0, 0⟩

/-- Word flush of the tokenizer (lines 473-488 and 491-505 of
grok-personality-filter.c): lowercase the pending buffer, accept it as a
token when it has length at least 2, its first character (after
lowercasing) is alphabetic and the token array is not full; the lexicon
flags are computed once here, on the truncated lowercased word. -/
def flushWord (voidSet persSet : List String) (st : TokState) : TokState :=
  if st.word.length = 0 then st
  else
    let wcs := st.word.map Char.toLower
    let w := String.mk wcs
    let keep := decide (2 ≤ st.word.length) && (wcs.headD ' ').isAlpha &&
      decide (st.toks.length < MAX_TOKENS)
    if keep then
      { st with
        word := [],
        toks := st.toks ++
          [Token.mk w (voidSet.contains w) (persSet.contains w) st.paraId st.wordStart] }
    else { st with word := [] }

/-- Paragraph close (lines 451-464 of grok-personality-filter.c): record the
interval ending at the current token count and advance, unless the
paragraph array is full, in which case only `para_id` and `para_start`
advance; the newline counter is reset. -/
def closePara (st : TokState) : TokState :=
  let n := st.toks.length
  let st' :=
    if st.closed.length < MAX_PARAGRAPHS - 1 then
      { st with closed := st.closed ++ [(st.curStart, n)], curStart := n }
    else st
  { st' with paraId := st'.paraId + 1, paraStart := n, newlines := 0 }

/-- One character of the tokenizer loop (lines 445-489 of
grok-personality-filter.c), in source order: advance the byte position,
then blank-line paragraph detection (a paragraph closes at the second
consecutive newline when the open paragraph is nonempty; a carriage return
neither counts nor resets), then word accumulation (characters beyond
`MAX_WORD_LEN - 1` are dropped) or, on a non-word character, the flush of a
pending word. -/
def stepChar (voidSet persSet : List String) (st0 : TokState) (c : Char) : TokState :=
  let st1 := { st0 with bytePos := st0.bytePos + 1 }
  let st2 :=
    if c == LF then
      let stn := { st1 with newlines := st1.newlines + 1 }
      if 2 ≤ stn.newlines ∧ stn.paraStart < stn.toks.length then closePara stn
      else stn
    else if c == CR then st1
    else { st1 with newlines := 0 }
  if is_word_char c then
    let st3 := if st2.word.length = 0 then { st2 with wordStart := st2.bytePos } else st2
    if st3.word.length < MAX_WORD_LEN - 1 then { st3 with word := st3.word ++ [c] }
    else st3
  else if 0 < st2.word.length then flushWord voidSet persSet st2
  else st2

/-- Full tokenizer of grok-personality-filter.c `main` over one input
stream: fold the character loop, then flush the last pending word
(lines 490-505). -/
def tokenize (voidSet persSet : List String) (input : List Char) : TokState :=
  flushWord voidSet persSet (input.foldl (stepChar voidSet persSet) initState)

/-- Final paragraph close (lines 509-514 of grok-personality-filter.c):
the open paragraph is appended when it is nonempty. -/
def finalSections (st : TokState) : List (Nat × Nat) :=
  if st.curStart < st.toks.length then st.closed ++ [(st.curStart, st.toks.length)]
  else st.closed

/-- Window of the co-occurrence classifier (lines 541-551 of
grok-personality-filter.c): token indices `j` from `lo = max(0, i - window)`
(truncated natural subtraction) to `hi = min(n - 1, i + window)`, the hit
index `i` itself excluded, in the loop order of the C code. -/
def windowIndices (n window i : Nat) : List Nat :=
  let lo := i - window
  let hi := min (n - 1) (i + window)
  (List.range' lo (hi + 1 - lo)).filter (fun j => j != i)

/-- Count of personality-flagged tokens in the window of hit `i`
(lines 547-549): reads the cached `is_personality` flag. -/
def persCountAt (toks : List Token) (window i : Nat) : Nat :=
  ((windowIndices toks.length window i).filter
    (fun j => (toks.getD j default).is_personality)).length

/-- Count of technical-marker tokens in the window of hit `i`
(lines 547-550): looks the neighbour word up in the technical set. -/
def techCountAt (toks : List Token) (techSet : List String) (window i : Nat) : Nat :=
  ((windowIndices toks.length window i).filter
    (fun j => techSet.contains (toks.getD j default).word)).length

/-- Classification of one hit (lines 553-565 of grok-personality-filter.c):
personality context wins, then technical context, else residual. -/
def classifyAt (toks : List Token) (techSet : List String) (window i : Nat) : Char :=
  if 0 < persCountAt toks window i then 'P'
  else if 0 < techCountAt toks techSet window i then 'A'
  else 'R'

/-- Corpus-wide count of void-cluster hits, `total_void`: the classifier
loop of lines 530-539 walks the token indices and counts the void-flagged
ones. -/
def total_void (toks : List Token) : Nat :=
  ((List.range toks.length).filter (fun i => (toks.getD i default).is_void)).length

/-- Number of hits that receive classification label `c` in the classifier
loop of grok-personality-filter.c. -/
def labelCount (toks : List Token) (techSet : List String) (window : Nat) (c : Char) : Nat :=
  ((List.range toks.length).filter
    (fun i => (toks.getD i default).is_void &&
      (classifyAt toks techSet window i == c))).length

/-- Counter `personality_void` (line 557). -/
def personality_void (toks : List Token) (techSet : List String) (window : Nat) : Nat :=
  labelCount toks techSet window 'P'

/-- Counter `anomalous_void` (line 561). -/
def anomalous_void (toks : List Token) (techSet : List String) (window : Nat) : Nat :=
  labelCount toks techSet window 'A'

/-- Counter `residual_void` (lines 560 and 564): incremented for both the
anomalous and the residual label, i.e. for every non-personality hit. -/
def residual_void (toks : List Token) (techSet : List String) (window : Nat) : Nat :=
  ((List.range toks.length).filter
    (fun i => (toks.getD i default).is_void &&
      !(classifyAt toks techSet window i == 'P'))).length

/-- Hit-log record of grok-personality-filter.c (`struct VoidHit`,
lines 233-240). -/
structure VoidHit where
  token_idx : Nat
  has_personality : Bool
  has_technical : Bool
  personality_count : Nat
  technical_count : Nat
  classification : Char
deriving DecidableEq, Repr

/-- Hit-log entry for the void token at index `i` (lines 567-575). -/
def mkHit (toks : List Token) (techSet : List String) (window i : Nat) : VoidHit :=
  { token_idx := i,
    has_personality := decide (0 < persCountAt toks window i),
    has_technical := decide (0 < techCountAt toks techSet window i),
    personality_count := persCountAt toks window i,
    technical_count := techCountAt toks techSet window i,
    classification := classifyAt toks techSet window i }

/-- Bounded hit log (lines 567-575 of grok-personality-filter.c): every void
token appends a record while fewer than `MAX_HIT_LOG` entries are stored;
later hits leave the log unchanged. -/
def hitLog (toks : List Token) (techSet : List String) (window : Nat) : List VoidHit :=
  (List.range toks.length).foldl
    (fun log i =>
      if (toks.getD i default).is_void ∧ log.length < MAX_HIT_LOG then
        log ++ [mkHit toks techSet window i]
      else log) []

/-- Unbounded sequence of hit records, in corpus order: what the log would
hold without the capacity check. -/
def allHits (toks : List Token) (techSet : List String) (window : Nat) : List VoidHit :=
  ((List.range toks.length).filter (fun i => (toks.getD i default).is_void)).map
    (mkHit toks techSet window)

/-- Paragraph attribution of a token index (lines 578-587 of
grok-personality-filter.c): the loop with `break` attributes index `i` to
the first paragraph whose interval contains it. -/
def attrib : List (Nat × Nat) → Nat → Option Nat
  | [], _ => none
  | s :: rest, i =>
      if s.1 ≤ i ∧ i < s.2 then some 0
      else (attrib rest i).map (fun p => p + 1)

/-- Per-paragraph count of hits with classification label `c` attributed to
paragraph `p` by the update loop of lines 577-587. -/
def paraLabelCount (toks : List Token) (techSet : List String) (window : Nat)
    (secs : List (Nat × Nat)) (p : Nat) (c : Char) : Nat :=
  ((List.range toks.length).filter
    (fun i => ((toks.getD i default).is_void && (attrib secs i == some p)) &&
      (classifyAt toks techSet window i == c))).length

/-- Per-paragraph `personality_void` field (lines 581-582). -/
def para_personality_void (toks : List Token) (techSet : List String) (window : Nat)
    (secs : List (Nat × Nat)) (p : Nat) : Nat :=
  paraLabelCount toks techSet window secs p 'P'

/-- Per-paragraph `residual_void` field (lines 583-584): every attributed
hit that is not personality-classified. -/
def para_residual_void (toks : List Token) (techSet : List String) (window : Nat)
    (secs : List (Nat × Nat)) (p : Nat) : Nat :=
  ((List.range toks.length).filter
    (fun i => ((toks.getD i default).is_void && (attrib secs i == some p)) &&
      !(classifyAt toks techSet window i == 'P'))).length

/-- Per-paragraph `void_hits` field (line 580). -/
def para_void_hits (toks : List Token) (techSet : List String) (window : Nat)
    (secs : List (Nat × Nat)) (p : Nat) : Nat :=
  ((List.range toks.length).filter
    (fun i => (toks.getD i default).is_void && (attrib secs i == some p))).length

/-- Diagnostics written to the error channel by grok-personality-filter.c
for a single already-opened input stream: the only message of the analysis
path is the fatal empty-corpus report of lines 516-519. In particular no
code path reports that the hit log reached `MAX_HIT_LOG`. -/
def stderrMsgs (toks : List Token) : List String :=
  if toks.length = 0 then ["No tokens found."] else []

/-- Default void/dissolution cluster of grok-personality-filter.c
(`VOID_CLUSTER`, lines 97-140). -/
def VOID_CLUSTER : List String :=
  ["void", "abyss", "nothing", "nothingness", "emptiness",
   "vacuum", "hollow", "blank", "oblivion",
   "dark", "darkness", "shadow", "shadows", "night",
   "black", "blackness", "dim", "murk", "gloom",
   "fracture", "fractured", "shatter", "shattered",
   "dissolve", "dissolved", "dissolution",
   "crumble", "crumbling", "decay", "decaying",
   "erode", "eroding", "collapse", "collapsed",
   "fray", "frayed", "wither", "withered",
   "fade", "fading", "faded",
   "disintegrate", "disintegrating",
   "bleed", "bleeding", "blood", "wound", "wounded",
   "scar", "scarred",
   "lost", "loss", "vanish", "vanished",
   "gone", "disappear", "disappeared", "absent", "absence",
   "cage", "caged", "trap", "trapped", "prison",
   "isolation", "isolated", "alone", "solitude",
   "death", "dead", "die", "dying", "perish",
   "doom", "doomed", "grave",
   "chaos", "chaotic", "twisted", "distorted",
   "ghost", "ghosts", "phantom", "haunted", "haunting",
   "silence", "silent", "mute", "muted", "hush",
   "drift", "drifting", "wander", "aimless",
   "edge", "edges", "brink", "precipice",
   "whisper", "whispers", "murmur",
   "forgotten", "forsaken", "abandoned", "desolate", "barren",
   "chasm", "depths", "extinct"]

/-- Grok personality marker cluster of grok-personality-filter.c
(`PERSONALITY_MARKERS`, lines 146-195), duplicates of the C array kept. -/
def PERSONALITY_MARKERS : List String :=
  ["lol", "haha", "lmao", "rofl", "heh",
   "joke", "jokes", "joking", "kidding",
   "funny", "hilarious", "humor", "humorous",
   "laugh", "laughing", "laughs",
   "sarcasm", "sarcastic", "sarcastically",
   "irony", "ironic", "ironically",
   "obviously", "clearly", "surely",
   "totally", "absolutely", "definitely",
   "gonna", "gotta", "wanna", "kinda", "sorta",
   "nah", "yeah", "yep", "nope", "btw",
   "hey", "dude", "bro", "yo", "alright",
   "chill", "cool", "awesome", "sweet",
   "honestly", "literally", "basically",
   "brace", "buckle", "spoiler", "plot-twist",
   "drumroll", "surprise", "boom", "mic-drop",
   "behold", "feast", "feast",
   "towel", "panic", "galaxy", "hitchhiker",
   "improbable", "improbability", "babel",
   "forty-two",
   "matrix", "morpheus", "neo", "terminator",
   "skynet", "hal", "jarvis",
   "sentient", "overlord", "overlords",
   "uprising", "rebellion", "robot", "robots",
   "skynet", "singularity",
   "sugarcoat", "blunt", "bluntly",
   "harsh", "brutal", "brutally",
   "frankly", "tbh",
   "whoa", "wow", "yikes", "ouch", "oof",
   "damn", "hell", "crap",
   "based", "cringe", "cope", "seethe",
   "chad", "sigma", "ratio", "vibe", "vibes",
   "lowkey", "highkey", "bussin", "slay",
   "bruh", "fam", "goat",
   "imagine", "picture", "envision",
   "spoiler-alert", "fun-fact", "protip",
   "hot-take", "unpopular", "controversial"]

/-- Technical register markers of grok-personality-filter.c
(`TECHNICAL_MARKERS`, lines 201-229). -/
def TECHNICAL_MARKERS : List String :=
  ["function", "variable", "parameter", "argument",
   "compile", "compiler", "runtime", "execute",
   "memory", "pointer", "buffer", "stack", "heap",
   "algorithm", "complexity", "optimization", "optimize",
   "array", "struct", "class", "object", "method",
   "integer", "float", "boolean", "string", "byte",
   "loop", "iterate", "recursive", "recursion",
   "binary", "hexadecimal", "bitwise", "register",
   "kernel", "syscall", "interrupt", "thread",
   "mutex", "semaphore", "atomic", "concurrent",
   "database", "query", "index", "schema",
   "protocol", "packet", "socket", "port",
   "server", "client", "request", "response",
   "api", "endpoint", "middleware", "framework",
   "repository", "commit", "branch", "merge",
   "cpu", "gpu", "ram", "ssd", "nvme",
   "motherboard", "chipset", "firmware", "bios",
   "voltage", "amperage", "wattage", "thermal",
   "equation", "theorem", "proof", "lemma",
   "matrix", "vector", "tensor", "eigenvalue",
   "derivative", "integral", "differential",
   "probability", "distribution", "variance",
   "coefficient", "exponential", "logarithm"]

/-- First increment-or-append scan of `record_hit` in
void-cluster-analyzer.c (lines 135-141): increment the first table entry
whose word matches, or report that no entry matched. -/
def bump : List (String × Nat) → String → Option (List (String × Nat))
  | [], _ => none
  | e :: rest, w =>
      if e.1 = w then some ((e.1, e.2 + 1) :: rest)
      else (bump rest w).map (fun t => e :: t)

/-- Frequency-table update `record_hit` of void-cluster-analyzer.c
(lines 135-148): increment the matching entry, else append a fresh entry
with count 1 when the table holds fewer than `MAX_WORDLIST` entries;
otherwise the hit is not recorded in the table. -/
def record_hit (t : List (String × Nat)) (w : String) : List (String × Nat) :=
  match bump t w with
  | some t' => t'
  | none => if t.length < MAX_WORDLIST then t ++ [(w, 1)] else t

/-- Frequency table after recording a stream of cluster-hit words, in
corpus order (`record_hit` is called once per cluster hit, line 350 of
void-cluster-analyzer.c). -/
def recordAll (ws : List String) : List (String × Nat) := ws.foldl record_hit []

/-- Sum of the per-term counts over all entries of the frequency table. -/
def sumCounts (t : List (String × Nat)) : Nat := (t.map Prod.snd).sum

/-- Words present in the frequency table. -/
def keys (t : List (String × Nat)) : List String := t.map Prod.fst

/-- Proportion z-test of void-cluster-analyzer.c (`z_test`, lines 175-180),
with C doubles read as real numbers: `z = (hits/total - p0) / se` with
`se = sqrt(p0 (1 - p0) / total)`, except that a standard error below
`1e-15` yields 0. -/
noncomputable def z_test (hits total : Nat) (p0 : ℝ) : ℝ :=
  let p_hat : ℝ := (hits : ℝ) / (total : ℝ)
  let se := Real.sqrt (p0 * (1 - p0) / (total : ℝ))
  if se < 1e-15 then 0 else (p_hat - p0) / se

/-- Proportion z-test of grok-personality-filter.c (`z_test`,
lines 264-270): identical to the analyzer version except for a leading
`total <= 0` guard, which for a natural-number count means `total = 0`. -/
noncomputable def z_test_filter (hits total : Nat) (p0 : ℝ) : ℝ :=
  if total = 0 then 0 else z_test hits total p0

/-- Standard normal CDF approximation shared by both C tools (`norm_cdf`,
lines 157-173 of void-cluster-analyzer.c, Abramowitz-Stegun 26.2.17): the
Horner accumulation `q` of the C code is written out as the polynomial
`c1 t + c2 t^2 + c3 t^3 + c4 t^4 + c5 t^5` in the reflected argument,
which is the same real number. -/
noncomputable def norm_cdf (x : ℝ) : ℝ :=
  if x < -8 then 0
  else if 8 < x then 1
  else
    let y := if x < 0 then -x else x
    let t := 1 / (1 + 0.2316419 * y)
    let q := 0.319381530 * t - 0.356563782 * t ^ 2 + 1.781477937 * t ^ 3 -
      1.821255978 * t ^ 4 + 1.330274429 * t ^ 5
    let s := q * Real.exp (-(0.5) * y * y) * 0.3989422804014327
    if x < 0 then s else 1 - s

/-- Chain of consecutive intervals: `IsChain secs a b` says the (start, end)
pairs in `secs` are nonempty, consecutive and run from `a` to `b`. -/
def IsChain : List (Nat × Nat) → Nat → Nat → Prop
  | [], a, b => a = b
  | s :: rest, a, b => s.1 = a ∧ s.1 < s.2 ∧ IsChain rest s.2 b

/-- Tokenizer-state invariant: the closed paragraphs form a chain of
nonempty consecutive intervals from token 0 to the start of the open
paragraph, which lies at or before `para_start`, which never exceeds the
token count. -/
def StateInv (st : TokState) : Prop :=
  IsChain st.closed 0 st.curStart ∧ st.curStart ≤ st.paraStart ∧
    st.paraStart ≤ st.toks.length

/-- Input of Scenario B of the specification. -/
def scenarioBInput : List Char :=
  String.toList ("void void void technical technical technical")

/-- Token sequence of Scenario B, written out. -/
def scenarioBList : List Token :=
  [Token.mk ("void") true false 0 1, Token.mk ("void") true false 0 6,
   Token.mk ("void") true false 0 11, Token.mk ("technical") false false 0 16,
   Token.mk ("technical") false false 0 26, Token.mk ("technical") false false 0 36]

/-- Token sequence of the repaired Scenario B input, written out. -/
def scenarioBTechList : List Token :=
  [Token.mk ("void") true false 0 1, Token.mk ("void") true false 0 6,
   Token.mk ("void") true false 0 11, Token.mk ("compiler") false false 0 16,
   Token.mk ("compiler") false false 0 25, Token.mk ("compiler") false false 0 34]

/-- Token sequence of Scenario B: default void cluster, empty personality
lexicon (no personality markers loaded). -/
def scenarioBTokens : List Token := (tokenize VOID_CLUSTER [] scenarioBInput).toks

/-- Scenario B input with the filler word replaced by an actual member of
`TECHNICAL_MARKERS`. -/
def scenarioBTechInput : List Char :=
  String.toList ("void void void compiler compiler compiler")

/-- Token sequence of the repaired Scenario B input. -/
def scenarioBTechTokens : List Token :=
  (tokenize VOID_CLUSTER [] scenarioBTechInput).toks

/-- Token as produced by the tokenizer for the word "void" under the
default lexicons: in the void cluster, not a personality marker. -/
def voidWordToken : Token :=
  { word := "void", is_void := VOID_CLUSTER.contains ("void"),
    is_personality := PERSONALITY_MARKERS.contains ("void"),
    para_id := 0, byte_offset := 1 }

/-- Corpus of `MAX_HIT_LOG + 1` cluster-term tokens, one more hit than the
hit log can hold. -/
def bigCorpus : List Token := List.replicate (MAX_HIT_LOG + 1) voidWordToken

/-- Twenty-three distinct lowercase letters. -/
def letters23 : List Char :=
  ['a', 'b', 'c', 'd', 'e', 'f', 'g', 'h', 'i', 'j', 'k', 'l', 'm',
   'n', 'o', 'p', 'q', 'r', 's', 't', 'u', 'v', 'w']

/-- The 529 distinct two-letter words over `letters23`. -/
def pairWords : List String :=
  (letters23.product letters23).map (fun p => String.mk [p.1, p.2])

/-- A stream of `MAX_WORDLIST + 1` pairwise distinct cluster-hit words. -/
def words513 : List String := pairWords.take (MAX_WORDLIST + 1)

/-- A maximal run of 64 hyphens: word characters, but not an acceptable
token (first character not alphabetic). -/
def hyphenRun : List Char := List.replicate MAX_WORD_LEN '-'

/-- A maximal run of 70 alphabetic characters, longer than the word
buffer. -/
def longRun : List Char := List.replicate 70 'a'

/-- Two-paragraph example input: "ab cd", a blank line, "ef gh". -/
def twoParaInput : List Char :=
  String.toList ("ab cd") ++ [LF, LF] ++ String.toList ("ef gh")

/-- Window membership characterized by the clamped natural-number
interval. -/
theorem mem_windowIndices (n window i j : Nat) :
    j ∈ windowIndices n window i ↔
      i - window ≤ j ∧ j ≤ min (n - 1) (i + window) ∧ j ≠ i := by
  unfold windowIndices
  simp only [List.mem_filter, List.mem_range'_1, bne_iff_ne, ne_eq,
    decide_eq_true_eq]
  omega

/-- The window index list never repeats an index. -/
theorem windowIndices_nodup (n window i : Nat) : (windowIndices n window i).Nodup :=
  List.Nodup.filter _ (List.nodup_range' _ _)

/-- C5: for a cluster-term hit at corpus index `i` with window radius `W`,
the classifier inspects exactly the indices `j` with
`max(0, i - W) ≤ j ≤ min(n - 1, i + W)` and `j ≠ i`; every inspected index
is below the corpus length (no negative index, no wraparound), and the
inspected list has no duplicates. -/
theorem cluster_window_clipped {n window i : Nat} (hi : i < n) (j : Nat) :
    (j ∈ windowIndices n window i ↔
      (max 0 ((i : ℤ) - window) ≤ (j : ℤ) ∧
        (j : ℤ) ≤ min ((n : ℤ) - 1) ((i : ℤ) + window) ∧ j ≠ i))
    ∧ (j ∈ windowIndices n window i → j < n)
    ∧ (windowIndices n window i).Nodup := by
  refine ⟨?_, ?_, windowIndices_nodup n window i⟩
  · rw [mem_windowIndices]
    omega
  · rw [mem_windowIndices]
    omega

/-- Witness for the window-clipping theorem at a boundary hit: corpus of 10
tokens, radius 15, hit at index 0, probe index 5. -/
theorem cluster_window_clipped_witness :
    (0 < 10 ∧
      ((5 ∈ windowIndices 10 15 0 ↔
        (max 0 ((0 : ℤ) - 15) ≤ (5 : ℤ) ∧
          (5 : ℤ) ≤ min ((10 : ℤ) - 1) ((0 : ℤ) + 15) ∧ 5 ≠ 0))
      ∧ (5 ∈ windowIndices 10 15 0 → 5 < 10)
      ∧ (windowIndices 10 15 0).Nodup)) :=
  ⟨by decide, cluster_window_clipped (by decide) 5⟩

/-- C2: a hit is labeled Personality exactly when its window holds at least
one personality marker (regardless of technical markers), Anomalous exactly
when the window holds no personality marker but at least one technical
marker, and Residual exactly when it holds neither. -/
theorem classification_priority (toks : List Token) (techSet : List String)
    (window i : Nat) :
    (classifyAt toks techSet window i = 'P' ↔ 0 < persCountAt toks window i)
    ∧ (classifyAt toks techSet window i = 'A' ↔
        persCountAt toks window i = 0 ∧ 0 < techCountAt toks techSet window i)
    ∧ (classifyAt toks techSet window i = 'R' ↔
        persCountAt toks window i = 0 ∧ techCountAt toks techSet window i = 0) := by
  unfold classifyAt
  split_ifs with h1 h2 <;>
    refine ⟨?_, ?_, ?_⟩ <;> simp_all <;> omega

/-- C6: for a positive total, the z-test of both C tools returns
`(hits/total - p0) / sqrt(p0 (1 - p0) / total)` whenever the standard error
is at least `1e-15`, returns exactly 0 when the standard error is below
that threshold, and the threshold can only fire for `p0` extremely close to
0 or 1: for `1e-10 ≤ p0 ≤ 1 - 1e-10` and a total of at most `MAX_TOKENS`
tokens the formula branch is always taken. -/
theorem z_test_spec (hits total : Nat) (p0 : ℝ) (htot : 0 < total) :
    ((1e-15 : ℝ) ≤ Real.sqrt (p0 * (1 - p0) / (total : ℝ)) →
      z_test hits total p0 =
        ((hits : ℝ) / (total : ℝ) - p0) / Real.sqrt (p0 * (1 - p0) / (total : ℝ)))
    ∧ (Real.sqrt (p0 * (1 - p0) / (total : ℝ)) < (1e-15 : ℝ) →
        z_test hits total p0 = 0)
    ∧ ((1e-10 : ℝ) ≤ p0 → p0 ≤ 1 - 1e-10 → total ≤ MAX_TOKENS →
        (1e-15 : ℝ) ≤ Real.sqrt (p0 * (1 - p0) / (total : ℝ)))
    ∧ z_test_filter hits total p0 = z_test hits total p0 := by
  refine ⟨?_, ?_, ?_, ?_⟩
  · intro h
    rw [z_test]
    simp only [if_neg (not_lt.mpr h)]
  · intro h
    rw [z_test]
    simp only [if_pos h]
  · intro h0 h1 hmax
    have htR : (0 : ℝ) < (total : ℝ) := by exact_mod_cast htot
    have htle : (total : ℝ) ≤ 2000000 := by
      have : total ≤ 2000000 := hmax
      exact_mod_cast this
    have hnum : (1e-10 : ℝ) * (1 - 1e-10) ≤ p0 * (1 - p0) := by nlinarith
    have hv : ((1e-15 : ℝ)) ^ 2 ≤ p0 * (1 - p0) / (total : ℝ) := by
      have h2 : (1e-10 : ℝ) * (1 - 1e-10) / 2000000 ≤ p0 * (1 - p0) / (total : ℝ) := by
        apply div_le_div (by nlinarith) hnum htR htle
      have h3 : ((1e-15 : ℝ)) ^ 2 ≤ (1e-10 : ℝ) * (1 - 1e-10) / 2000000 := by norm_num
      linarith
    calc (1e-15 : ℝ) = Real.sqrt ((1e-15 : ℝ) ^ 2) := by
          rw [Real.sqrt_sq (by norm_num)]
      _ ≤ Real.sqrt (p0 * (1 - p0) / (total : ℝ)) := Real.sqrt_le_sqrt hv
  · rw [z_test_filter, if_neg (Nat.pos_iff_ne_zero.mp htot)]

/-- Witness for the z-test specification at Scenario A's input: 0 hits out
of 141 tokens against baseline 1/100. -/
theorem z_test_spec_witness :
    0 < 141 ∧
    (((1e-15 : ℝ) ≤ Real.sqrt ((1 / 100 : ℝ) * (1 - 1 / 100) / ((141 : Nat) : ℝ)) →
      z_test 0 141 (1 / 100) =
        (((0 : Nat) : ℝ) / ((141 : Nat) : ℝ) - 1 / 100) /
          Real.sqrt ((1 / 100 : ℝ) * (1 - 1 / 100) / ((141 : Nat) : ℝ)))
    ∧ (Real.sqrt ((1 / 100 : ℝ) * (1 - 1 / 100) / ((141 : Nat) : ℝ)) < (1e-15 : ℝ) →
        z_test 0 141 (1 / 100) = 0)
    ∧ ((1e-10 : ℝ) ≤ (1 / 100 : ℝ) → (1 / 100 : ℝ) ≤ 1 - 1e-10 → 141 ≤ MAX_TOKENS →
        (1e-15 : ℝ) ≤ Real.sqrt ((1 / 100 : ℝ) * (1 - 1 / 100) / ((141 : Nat) : ℝ)))
    ∧ z_test_filter 0 141 (1 / 100) = z_test 0 141 (1 / 100)) :=
  ⟨by norm_num, z_test_spec 0 141 (1 / 100) (by norm_num)⟩

/-- Folding a capped append over a list appends the mapped prefix that fits
under the capacity. -/
theorem foldl_capped_append {α β : Type} (f : α → β) (cap : Nat) :
    ∀ (l : List α) (acc : List β), acc.length ≤ cap →
      l.foldl (fun log x => if log.length < cap then log ++ [f x] else log) acc
        = acc ++ (l.map f).take (cap - acc.length) := by
  intro l
  induction l with
  | nil => intro acc _; simp
  | cons x l ih =>
      intro acc hacc
      by_cases hlt : acc.length < cap
      · have h1 : (acc ++ [f x]).length ≤ cap := by
          simp only [List.length_append, List.length_singleton]; omega
        simp only [List.foldl_cons, if_pos hlt, ih _ h1, List.append_assoc,
          List.length_append, List.length_singleton, List.map_cons]
        have h2 : cap - acc.length = (cap - (acc.length + 1)) + 1 := by omega
        rw [h2, List.take_succ_cons]
        simp
      · have heq : acc.length = cap := by omega
        have h0 : cap - acc.length = 0 := by omega
        simp only [List.foldl_cons, if_neg hlt, ih _ hacc, h0, List.take_zero,
          List.append_nil]

/-- Folding with a guard is folding over the guarded sublist. -/
theorem foldl_guard_filter {β : Type} (p : Nat → Bool) (f : Nat → β) (cap : Nat) :
    ∀ (l : List Nat) (acc : List β),
      l.foldl (fun log i => if p i ∧ log.length < cap then log ++ [f i] else log) acc
        = (l.filter p).foldl (fun log i => if log.length < cap then log ++ [f i] else log) acc := by
  intro l
  induction l with
  | nil => intro acc; simp
  | cons x l ih =>
      intro acc
      by_cases hp : p x
      · by_cases hlt : acc.length < cap
        · simp [List.foldl_cons, hp, hlt, ih]
        · simp [List.foldl_cons, hp, hlt, ih]
      · simp [List.foldl_cons, hp, ih]

/-- The hit log is the earliest `MAX_HIT_LOG`-long prefix of the full hit
sequence. -/
theorem hitLog_eq_take (toks : List Token) (techSet : List String) (window : Nat) :
    hitLog toks techSet window = (allHits toks techSet window).take MAX_HIT_LOG := by
  rw [hitLog, allHits, foldl_guard_filter, foldl_capped_append]
  · simp
  · simp

/-- C4 (amended part): for every corpus the hit log retains exactly the
earliest `MAX_HIT_LOG` hit records; later hits produce no log entry. -/
theorem hit_log_keeps_earliest (toks : List Token) (techSet : List String) (window : Nat) :
    hitLog toks techSet window = (allHits toks techSet window).take MAX_HIT_LOG
    ∧ (hitLog toks techSet window).length = min MAX_HIT_LOG (allHits toks techSet window).length := by
  refine ⟨hitLog_eq_take toks techSet window, ?_⟩
  rw [hitLog_eq_take, List.length_take]

/-- C4 (counterexample): a corpus of `MAX_HIT_LOG + 1` cluster-term tokens
produces more hits than the log capacity, the log drops the final hit, and
the program's error-channel output contains no truncation notice (it is
empty). -/
theorem hit_log_truncation_counterexample :
    total_void bigCorpus = MAX_HIT_LOG + 1
    ∧ (hitLog bigCorpus TECHNICAL_MARKERS 15).length = MAX_HIT_LOG
    ∧ stderrMsgs bigCorpus = [] := by
  have hvoid : voidWordToken.is_void = true := by decide
  have hget : ∀ i ∈ List.range (MAX_HIT_LOG + 1), (bigCorpus.getD i default).is_void = true := by
    intro i hi
    rw [List.mem_range] at hi
    rw [bigCorpus, List.getD_eq_getElem?_getD, List.getElem?_replicate, if_pos hi]
    exact hvoid
  have hlen : bigCorpus.length = MAX_HIT_LOG + 1 := by
    rw [bigCorpus, List.length_replicate]
  have hfilter : (List.range bigCorpus.length).filter
      (fun i => (bigCorpus.getD i default).is_void) = List.range (MAX_HIT_LOG + 1) := by
    rw [hlen]
    exact List.filter_eq_self.mpr hget
  refine ⟨?_, ?_, ?_⟩
  · rw [total_void, hfilter, List.length_range]
  · rw [hitLog_eq_take, List.length_take, allHits, hfilter,
      List.length_map, List.length_range]
    rw [MAX_HIT_LOG]
    omega
  · rw [stderrMsgs, if_neg (by rw [hlen]; omega)]

/-- A token-predicate count over any index list vanishes when no token of
the corpus satisfies the predicate and the default token does not either. -/
theorem filter_getD_nil (toks : List Token) (q : Token → Bool) (l : List Nat)
    (hq : q default = false) (h : ∀ t ∈ toks, q t = false) :
    (l.filter (fun j => q (toks.getD j default))).length = 0 := by
  rw [List.length_eq_zero, List.filter_eq_nil]
  intro j _
  rcases h' : toks[j]? with _ | t
  · simp [List.getD_eq_getElem?_getD, h', hq]
  · have ht : t ∈ toks := List.getElem?_mem h'
    simp [List.getD_eq_getElem?_getD, h', h t ht]

/-- A token-predicate count is positive as soon as one listed index holds a
satisfying token. -/
theorem filter_getD_pos (toks : List Token) (q : Token → Bool) (l : List Nat)
    (j : Nat) (hj : j ∈ l) (hq : q (toks.getD j default) = true) :
    0 < (l.filter (fun j => q (toks.getD j default))).length := by
  rw [List.length_pos]
  intro hnil
  have hmem : j ∈ l.filter (fun j => q (toks.getD j default)) := by
    rw [List.mem_filter]
    exact ⟨hj, hq⟩
  rw [hnil] at hmem
  exact absurd hmem (List.not_mem_nil j)

/-- C3 (counterexample): on the input of Scenario B with window radius 3
and no personality markers loaded, the three void hits are classified
Residual, not Anomalous: the filler word of the scenario is not a member of
the default technical-marker lexicon. -/
theorem scenarioB_counterexample :
    scenarioBTokens.length = 6
    ∧ (hitLog scenarioBTokens TECHNICAL_MARKERS 3).map
        (fun h => h.classification) = ['R', 'R', 'R']
    ∧ ¬((hitLog scenarioBTokens TECHNICAL_MARKERS 3).map
        (fun h => h.classification) = ['A', 'A', 'A']) := by
  decide

/-- C3 (amended): for every window radius of at least 3, the Scenario B
input tokenizes to 6 tokens whose three void hits all classify Residual
(the scenario's filler word is not a technical marker), while the same
corpus with the filler replaced by the technical marker word of
`scenarioBTechInput` yields three Anomalous hits. -/
theorem scenarioB_residual_classification (window : Nat) (hw : 3 ≤ window) :
    scenarioBTokens.length = 6
    ∧ (hitLog scenarioBTokens TECHNICAL_MARKERS window).map
        (fun h => h.classification) = ['R', 'R', 'R']
    ∧ (hitLog scenarioBTechTokens TECHNICAL_MARKERS window).map
        (fun h => h.classification) = ['A', 'A', 'A'] := by
  have htoks : scenarioBTokens = scenarioBList := by decide
  have htoks2 : scenarioBTechTokens = scenarioBTechList := by decide
  have hdefp : (default : Token).is_personality = false := rfl
  have hdeft : TECHNICAL_MARKERS.contains (default : Token).word = false := by decide
  have hpers1 : ∀ i, persCountAt scenarioBList window i = 0 := by
    intro i
    rw [persCountAt]
    exact filter_getD_nil scenarioBList (fun t => t.is_personality) _ hdefp (by decide)
  have htech1 : ∀ i, techCountAt scenarioBList TECHNICAL_MARKERS window i = 0 := by
    intro i
    rw [techCountAt]
    exact filter_getD_nil scenarioBList (fun t => TECHNICAL_MARKERS.contains t.word) _
      hdeft (by decide)
  have hpers2 : ∀ i, persCountAt scenarioBTechList window i = 0 := by
    intro i
    rw [persCountAt]
    exact filter_getD_nil scenarioBTechList (fun t => t.is_personality) _ hdefp (by decide)
  have hcl1 : ∀ i, classifyAt scenarioBList TECHNICAL_MARKERS window i = 'R' := by
    intro i
    rw [classifyAt, hpers1 i, htech1 i]
    simp
  have hmem3 : ∀ i, i < 3 → 3 ∈ windowIndices scenarioBTechList.length window i := by
    intro i hi
    rw [mem_windowIndices]
    have h6 : scenarioBTechList.length = 6 := by decide
    rw [h6]
    omega
  have htech2 : ∀ i, i < 3 →
      0 < techCountAt scenarioBTechList TECHNICAL_MARKERS window i := by
    intro i hi
    rw [techCountAt]
    exact filter_getD_pos scenarioBTechList
      (fun t => TECHNICAL_MARKERS.contains t.word) _ 3 (hmem3 i hi) (by decide)
  have hcl2 : ∀ i, i < 3 →
      classifyAt scenarioBTechList TECHNICAL_MARKERS window i = 'A' := by
    intro i hi
    rw [classifyAt, hpers2 i]
    simp only [Nat.lt_irrefl, if_false]
    rw [if_pos (htech2 i hi)]
  have hfil1 : (List.range scenarioBList.length).filter
      (fun i => (scenarioBList.getD i default).is_void) = [0, 1, 2] := by decide
  have hfil2 : (List.range scenarioBTechList.length).filter
      (fun i => (scenarioBTechList.getD i default).is_void) = [0, 1, 2] := by decide
  refine ⟨by rw [htoks]; decide, ?_, ?_⟩
  · rw [htoks, hitLog_eq_take, allHits, hfil1,
      List.take_of_length_le (by simp [MAX_HIT_LOG])]
    simp [mkHit, hcl1]
  · rw [htoks2, hitLog_eq_take, allHits, hfil2,
      List.take_of_length_le (by simp [MAX_HIT_LOG])]
    simp [mkHit, hcl2 0 (by omega), hcl2 1 (by omega), hcl2 2 (by omega)]

/-- Witness for the amended Scenario B theorem at window radius 3. -/
theorem scenarioB_residual_classification_witness :
    3 ≤ 3
    ∧ (scenarioBTokens.length = 6
      ∧ (hitLog scenarioBTokens TECHNICAL_MARKERS 3).map
          (fun h => h.classification) = ['R', 'R', 'R']
      ∧ (hitLog scenarioBTechTokens TECHNICAL_MARKERS 3).map
          (fun h => h.classification) = ['A', 'A', 'A']) :=
  ⟨Nat.le_refl 3, scenarioB_residual_classification 3 (Nat.le_refl 3)⟩

/-- Taking `n` then appending then taking `n` again equals appending then
taking `n`. -/
theorem take_append_take {α : Type} (a r : List α) (n : Nat) :
    ((a.take n) ++ r).take n = (a ++ r).take n := by
  rcases le_or_lt a.length n with h | h
  · rw [List.take_of_length_le h]
  · rw [List.take_append_of_le_length (by rw [List.length_take]; omega),
      List.take_append_of_le_length (by omega), List.take_take]
    congr 1
    omega

/-- One tokenizer step on a word character: the byte position advances, the
newline counter clears, the word start latches on the first character of a
word, and the character joins the pending buffer unless the buffer already
holds `MAX_WORD_LEN - 1` characters. -/
theorem stepChar_word (v p : List String) (st : TokState) (c : Char)
    (hc : is_word_char c = true) (hlen : st.word.length ≤ MAX_WORD_LEN - 1) :
    stepChar v p st c =
      { st with
        word := (st.word ++ [c]).take (MAX_WORD_LEN - 1),
        bytePos := st.bytePos + 1,
        newlines := 0,
        wordStart := if st.word.length = 0 then st.bytePos + 1 else st.wordStart } := by
  have hLF : (c == LF) = false := by
    rcases hbe : c == LF with _ | _
    · rfl
    · rw [beq_iff_eq] at hbe
      rw [hbe] at hc
      exact absurd hc (by decide)
  have hCR : (c == CR) = false := by
    rcases hbe : c == CR with _ | _
    · rfl
    · rw [beq_iff_eq] at hbe
      rw [hbe] at hc
      exact absurd hc (by decide)
  rw [stepChar]
  simp only [hLF, hCR, hc, Bool.false_eq_true, if_false, if_true]
  split_ifs with h1 h2 h2
  · dsimp only at h2 ⊢
    rw [List.take_of_length_le (by rw [List.length_append, List.length_singleton]; omega)]
  · exfalso
    dsimp only at h2
    rw [MAX_WORD_LEN] at h2
    omega
  · dsimp only at h2 ⊢
    rw [List.take_of_length_le (by rw [List.length_append, List.length_singleton]; omega)]
  · dsimp only at h2 ⊢
    have heq : st.word.length = MAX_WORD_LEN - 1 := by omega
    rw [List.take_append_of_le_length (by omega), List.take_of_length_le (by omega)]

/-- Folding the tokenizer over a nonempty run of word characters only
accumulates the pending buffer (truncated at `MAX_WORD_LEN - 1`), advances
the byte position, clears the newline counter and latches the word start;
tokens and paragraphs do not change. -/
theorem foldl_word_run (v p : List String) :
    ∀ (run : List Char) (st : TokState), run ≠ [] →
      (∀ c ∈ run, is_word_char c = true) →
      st.word.length ≤ MAX_WORD_LEN - 1 →
      run.foldl (stepChar v p) st =
        { st with
          word := (st.word ++ run).take (MAX_WORD_LEN - 1),
          bytePos := st.bytePos + run.length,
          newlines := 0,
          wordStart := if st.word.length = 0 then st.bytePos + 1 else st.wordStart } := by
  intro run
  induction run with
  | nil => intro st h _ _; exact absurd rfl h
  | cons c rest ih =>
      intro st _ hall hlen
      rw [List.foldl_cons, stepChar_word v p st c (hall c (by simp)) hlen]
      rcases eq_or_ne rest [] with hr | hr
      · subst hr
        simp
      · have hlen2 : ((st.word ++ [c]).take (MAX_WORD_LEN - 1)).length ≤ MAX_WORD_LEN - 1 := by
          rw [List.length_take]
          omega
        rw [ih _ hr (fun d hd => hall d (by simp [hd])) hlen2]
        have hpos : ((st.word ++ [c]).take (MAX_WORD_LEN - 1)).length ≠ 0 := by
          rw [List.length_take, List.length_append, List.length_singleton, MAX_WORD_LEN]
          omega
        simp only [if_neg hpos]
        have hword : (((st.word ++ [c]).take (MAX_WORD_LEN - 1)) ++ rest).take (MAX_WORD_LEN - 1)
            = (st.word ++ c :: rest).take (MAX_WORD_LEN - 1) := by
          rw [take_append_take]
          congr 1
          rw [List.append_assoc]
          rfl
        rw [hword]
        simp only [List.length_cons]
        congr 1
        omega

/-- C10 (counterexample): a maximal run of 64 hyphens consists of word
characters and is longer than 63 characters, yet the tokenizer emits no
token at all for it (its first character is not alphabetic), rather than a
single truncated token. -/
theorem long_run_counterexample :
    (∀ c ∈ hyphenRun, is_word_char c = true)
    ∧ MAX_WORD_LEN - 1 < hyphenRun.length
    ∧ (tokenize VOID_CLUSTER PERSONALITY_MARKERS hyphenRun).toks = [] := by
  decide

/-- C10 (amended): for a maximal run of word characters longer than 63
characters whose first character is alphabetic, the tokenizer emits exactly
one token, consisting of the run's first 63 characters lowercased; the
remaining characters are dropped without starting a new token, and the
lexicon flags are computed from this truncated form. -/
theorem long_run_truncated (voidSet persSet : List String) (run : List Char)
    (hrun : ∀ c ∈ run, is_word_char c = true)
    (hlong : MAX_WORD_LEN - 1 < run.length)
    (halpha : (((run.take (MAX_WORD_LEN - 1)).map Char.toLower).headD ' ').isAlpha = true) :
    (tokenize voidSet persSet run).toks =
      [Token.mk (String.mk ((run.take (MAX_WORD_LEN - 1)).map Char.toLower))
        (voidSet.contains (String.mk ((run.take (MAX_WORD_LEN - 1)).map Char.toLower)))
        (persSet.contains (String.mk ((run.take (MAX_WORD_LEN - 1)).map Char.toLower)))
        0 1] := by
  have hne : run ≠ [] := by
    intro h
    rw [h] at hlong
    simp at hlong
  have hlen63 : (List.take (MAX_WORD_LEN - 1) run).length = MAX_WORD_LEN - 1 := by
    rw [List.length_take]
    omega
  rw [tokenize, foldl_word_run voidSet persSet run initState hne hrun (by simp [initState])]
  simp only [initState]
  rw [flushWord]
  dsimp only
  simp only [List.nil_append]
  have hne0 : ¬((List.take (MAX_WORD_LEN - 1) run).length = 0) := by
    rw [hlen63, MAX_WORD_LEN]
    omega
  rw [if_neg hne0]
  have hkeep : (decide (2 ≤ (List.take (MAX_WORD_LEN - 1) run).length) &&
      (((List.take (MAX_WORD_LEN - 1) run).map Char.toLower).headD ' ').isAlpha &&
      decide ((([] : List Token)).length < MAX_TOKENS)) = true := by
    rw [hlen63, halpha]
    decide
  rw [hkeep]
  simp

/-- Witness for the truncation theorem on a run of 70 letters. -/
theorem long_run_truncated_witness :
    (∀ c ∈ longRun, is_word_char c = true)
    ∧ MAX_WORD_LEN - 1 < longRun.length
    ∧ ((((longRun.take (MAX_WORD_LEN - 1)).map Char.toLower).headD ' ').isAlpha = true)
    ∧ (tokenize VOID_CLUSTER PERSONALITY_MARKERS longRun).toks =
      [Token.mk (String.mk ((longRun.take (MAX_WORD_LEN - 1)).map Char.toLower))
        (VOID_CLUSTER.contains (String.mk ((longRun.take (MAX_WORD_LEN - 1)).map Char.toLower)))
        (PERSONALITY_MARKERS.contains
          (String.mk ((longRun.take (MAX_WORD_LEN - 1)).map Char.toLower)))
        0 1] :=
  ⟨by decide, by decide, by decide,
    long_run_truncated VOID_CLUSTER PERSONALITY_MARKERS longRun
      (by decide) (by decide) (by decide)⟩

/-- Chains run from their lower to their upper bound. -/
theorem IsChain.le : ∀ {secs : List (Nat × Nat)} {a b : Nat}, IsChain secs a b → a ≤ b := by
  intro secs
  induction secs with
  | nil => intro a b h; exact le_of_eq h
  | cons s rest ih =>
      intro a b h
      rcases h with ⟨h1, h2, h3⟩
      have := ih h3
      omega

/-- Every interval of a chain is nonempty and lies inside the bounds. -/
theorem IsChain.mem_bounds :
    ∀ {secs : List (Nat × Nat)} {a b : Nat}, IsChain secs a b →
      ∀ s ∈ secs, a ≤ s.1 ∧ s.1 < s.2 ∧ s.2 ≤ b := by
  intro secs
  induction secs with
  | nil => intro a b _ s hs; exact absurd hs (List.not_mem_nil s)
  | cons x rest ih =>
      intro a b h s hs
      rcases h with ⟨h1, h2, h3⟩
      rcases List.mem_cons.mp hs with hx | hx
      · subst hx
        have := IsChain.le h3
        omega
      · have hb := ih h3 s hx
        omega

/-- Appending one further interval extends a chain. -/
theorem IsChain.append_single :
    ∀ {secs : List (Nat × Nat)} {a b c : Nat}, IsChain secs a b → b < c →
      IsChain (secs ++ [(b, c)]) a c := by
  intro secs
  induction secs with
  | nil =>
      intro a b c h hbc
      subst h
      exact ⟨rfl, hbc, rfl⟩
  | cons x rest ih =>
      intro a b c h hbc
      rcases h with ⟨h1, h2, h3⟩
      exact ⟨h1, h2, ih h3 hbc⟩

/-- The interval sizes of a chain sum to the spanned length. -/
theorem IsChain.sum_sizes :
    ∀ {secs : List (Nat × Nat)} {a b : Nat}, IsChain secs a b →
      (secs.map (fun s => s.2 - s.1)).sum = b - a := by
  intro secs
  induction secs with
  | nil => intro a b h; rw [h]; simp
  | cons x rest ih =>
      intro a b h
      rcases h with ⟨h1, h2, h3⟩
      have hsum := ih h3
      have hle := IsChain.le h3
      rw [List.map_cons, List.sum_cons, hsum]
      omega

/-- Every position spanned by a chain lies in exactly one of its
intervals. -/
theorem IsChain.existsUnique :
    ∀ {secs : List (Nat × Nat)} {a b : Nat}, IsChain secs a b →
      ∀ i, a ≤ i → i < b →
        ∃! p : Fin secs.length, (secs.get p).1 ≤ i ∧ i < (secs.get p).2 := by
  intro secs
  induction secs with
  | nil =>
      intro a b h i h1 h2
      rw [h] at h1
      omega
  | cons s rest ih =>
      intro a b h i h1 h2
      rcases h with ⟨hs, hlt, hch⟩
      by_cases hy : i < s.2
      · refine ⟨⟨0, by simp⟩, ⟨?_, ?_⟩, ?_⟩
        · simp only [List.get_eq_getElem, List.getElem_cons_zero]
          omega
        · simp only [List.get_eq_getElem, List.getElem_cons_zero]
          exact hy
        · rintro ⟨qv, hqlt⟩ hq
          cases qv with
          | zero => rfl
          | succ q =>
              exfalso
              simp only [List.get_eq_getElem, List.getElem_cons_succ] at hq
              have hq2 : q < rest.length := by simpa using hqlt
              have hmem : rest[q] ∈ rest := List.getElem_mem hq2
              have hb := IsChain.mem_bounds hch _ hmem
              omega
      · have hih := ih hch i (by omega) h2
        rcases hih with ⟨⟨q, hqlt⟩, hqprop, hquniq⟩
        simp only [List.get_eq_getElem] at hqprop
        refine ⟨⟨q + 1, by simpa using hqlt⟩, ?_, ?_⟩
        · simp only [List.get_eq_getElem, List.getElem_cons_succ]
          exact hqprop
        · rintro ⟨rv, hrlt⟩ hr
          cases rv with
          | zero =>
              exfalso
              simp only [List.get_eq_getElem, List.getElem_cons_zero] at hr
              omega
          | succ r =>
              simp only [List.get_eq_getElem, List.getElem_cons_succ] at hr
              have hr2 : r < rest.length := by simpa using hrlt
              have := hquniq ⟨r, hr2⟩ (by simp only [List.get_eq_getElem]; exact hr)
              simp only [Fin.mk.injEq] at this ⊢
              omega

/-- The state invariant transfers along field-preserving updates. -/
theorem stateInv_transfer {st st' : TokState} (h : StateInv st)
    (hc : st'.closed = st.closed) (hcs : st'.curStart = st.curStart)
    (hps : st'.paraStart = st.paraStart) (hlen : st.toks.length ≤ st'.toks.length) :
    StateInv st' := by
  rcases h with ⟨h1, h2, h3⟩
  refine ⟨?_, ?_, ?_⟩
  · rw [hc, hcs]; exact h1
  · rw [hcs, hps]; exact h2
  · rw [hps]; omega

/-- Flushing the pending word keeps the paragraph bookkeeping and never
removes tokens. -/
theorem flushWord_fields (v p : List String) (st : TokState) :
    (flushWord v p st).closed = st.closed ∧ (flushWord v p st).curStart = st.curStart ∧
    (flushWord v p st).paraStart = st.paraStart ∧
    st.toks.length ≤ (flushWord v p st).toks.length := by
  simp only [flushWord]
  split_ifs <;> simp

/-- Closing a paragraph at a strictly advanced position preserves the state
invariant. -/
theorem closePara_inv (st : TokState) (h : StateInv st)
    (hlt : st.paraStart < st.toks.length) : StateInv (closePara st) := by
  rcases h with ⟨h1, h2, h3⟩
  rw [closePara]
  split_ifs with hcap
  · exact ⟨IsChain.append_single h1 (by omega), le_refl _, le_refl _⟩
  · refine ⟨h1, ?_, le_refl _⟩
    show st.curStart ≤ st.toks.length
    omega

/-- One tokenizer step preserves the state invariant. -/
theorem stepChar_inv (v p : List String) (c : Char) (st : TokState) (h : StateInv st) :
    StateInv (stepChar v p st c) := by
  have hflush : ∀ st' : TokState, StateInv st' → StateInv (flushWord v p st') := by
    intro st' h'
    rcases flushWord_fields v p st' with ⟨f1, f2, f3, f4⟩
    exact stateInv_transfer h' f1 f2 f3 f4
  by_cases hc : is_word_char c = true
  · have hLF : (c == LF) = false := by
      rcases hbe : c == LF with _ | _
      · rfl
      · rw [beq_iff_eq] at hbe
        rw [hbe] at hc
        exact absurd hc (by decide)
    have hCR : (c == CR) = false := by
      rcases hbe : c == CR with _ | _
      · rfl
      · rw [beq_iff_eq] at hbe
        rw [hbe] at hc
        exact absurd hc (by decide)
    rw [stepChar]
    simp only [hLF, hCR, hc, Bool.false_eq_true, if_false, if_true]
    split_ifs <;> exact stateInv_transfer h rfl rfl rfl (le_refl _)
  · rw [stepChar]
    rw [Bool.not_eq_true] at hc
    simp only [hc, Bool.false_eq_true, if_false]
    split_ifs with hLF hcl h0 <;>
      first
        | exact hflush _ (closePara_inv _ (stateInv_transfer h rfl rfl rfl (le_refl _)) hcl.2)
        | exact closePara_inv _ (stateInv_transfer h rfl rfl rfl (le_refl _)) hcl.2
        | exact hflush _ (stateInv_transfer h rfl rfl rfl (le_refl _))
        | exact stateInv_transfer h rfl rfl rfl (le_refl _)

/-- The tokenizer fold preserves the state invariant. -/
theorem foldl_inv (v p : List String) (input : List Char) :
    ∀ st : TokState, StateInv st → StateInv (input.foldl (stepChar v p) st) := by
  induction input with
  | nil => intro st h; exact h
  | cons c rest ih =>
      intro st h
      rw [List.foldl_cons]
      exact ih _ (stepChar_inv v p c st h)

/-- The full tokenizer satisfies the state invariant. -/
theorem tokenize_inv (v p : List String) (input : List Char) :
    StateInv (tokenize v p input) := by
  rw [tokenize]
  have h0 : StateInv initState := ⟨rfl, le_refl 0, Nat.zero_le _⟩
  rcases flushWord_fields v p (input.foldl (stepChar v p) initState) with ⟨f1, f2, f3, f4⟩
  exact stateInv_transfer (foldl_inv v p input initState h0) f1 f2 f3 f4

/-- The sections produced by the tokenizer form a chain covering exactly
the token range. -/
theorem tokenize_sections_chain (v p : List String) (input : List Char) :
    IsChain (finalSections (tokenize v p input)) 0 (tokenize v p input).toks.length := by
  rcases tokenize_inv v p input with ⟨h1, h2, h3⟩
  rw [finalSections]
  split_ifs with hlt
  · exact IsChain.append_single h1 hlt
  · have heq : (tokenize v p input).curStart = (tokenize v p input).toks.length := by omega
    rw [← heq]
    exact h1

/-- C8: for every input, the sections built from blank-line boundaries
partition the token sequence: their sizes sum to the corpus length and
every token index lies in exactly one section (no gap, no overlap). -/
theorem sections_partition (voidSet persSet : List String) (input : List Char) :
    (((finalSections (tokenize voidSet persSet input)).map (fun s => s.2 - s.1)).sum
        = (tokenize voidSet persSet input).toks.length)
    ∧ ∀ i, i < (tokenize voidSet persSet input).toks.length →
        ∃! p : Fin (finalSections (tokenize voidSet persSet input)).length,
          ((finalSections (tokenize voidSet persSet input)).get p).1 ≤ i ∧
            i < ((finalSections (tokenize voidSet persSet input)).get p).2 := by
  have hch := tokenize_sections_chain voidSet persSet input
  constructor
  · rw [IsChain.sum_sizes hch]
    omega
  · intro i hi
    exact IsChain.existsUnique hch i (Nat.zero_le i) hi

/-- Witness for the section-partition theorem: the two-paragraph example
input and token index 2. -/
theorem sections_partition_witness :
    2 < (tokenize VOID_CLUSTER PERSONALITY_MARKERS twoParaInput).toks.length
    ∧ ∃! p : Fin (finalSections (tokenize VOID_CLUSTER PERSONALITY_MARKERS twoParaInput)).length,
        ((finalSections (tokenize VOID_CLUSTER PERSONALITY_MARKERS twoParaInput)).get p).1 ≤ 2 ∧
          2 < ((finalSections (tokenize VOID_CLUSTER PERSONALITY_MARKERS twoParaInput)).get p).2 :=
  ⟨by decide,
    (sections_partition VOID_CLUSTER PERSONALITY_MARKERS twoParaInput).2 2 (by decide)⟩

/-- Every hit classification is one of the three labels. -/
theorem classifyAt_cases (toks : List Token) (techSet : List String) (window i : Nat) :
    classifyAt toks techSet window i = 'P' ∨ classifyAt toks techSet window i = 'A' ∨
      classifyAt toks techSet window i = 'R' := by
  rw [classifyAt]
  split_ifs <;> simp

/-- Counting a base predicate split by a three-valued label: the three
label buckets sum to the base count. -/
theorem tri_split (u : Nat → Bool) (cl : Nat → Char)
    (hcl : ∀ i, cl i = 'P' ∨ cl i = 'A' ∨ cl i = 'R') :
    ∀ l : List Nat,
      (l.filter (fun i => u i && (cl i == 'P'))).length +
        (l.filter (fun i => u i && (cl i == 'A'))).length +
        (l.filter (fun i => u i && (cl i == 'R'))).length =
      (l.filter u).length := by
  intro l
  induction l with
  | nil => simp
  | cons a l ih =>
      rcases hcl a with h | h | h <;>
        by_cases hu : u a = true <;>
          simp only [List.filter_cons, h, hu, Bool.true_and, Bool.false_and,
            Bool.and_true, Bool.and_false, if_true, if_false, Bool.false_eq_true,
            beq_self_eq_true, List.length_cons,
            show (('P' : Char) == 'A') = false by decide,
            show (('P' : Char) == 'R') = false by decide,
            show (('A' : Char) == 'P') = false by decide,
            show (('A' : Char) == 'R') = false by decide,
            show (('R' : Char) == 'P') = false by decide,
            show (('R' : Char) == 'A') = false by decide] <;>
          omega

/-- Summing an indicator of one position over a range counts it once. -/
theorem sum_indicator (q : Nat) :
    ∀ m : Nat, q < m →
      ((List.range m).map (fun p => if p = q then 1 else 0)).sum = 1 := by
  intro m
  induction m with
  | zero => intro h; omega
  | succ m ih =>
      intro hq
      rw [List.range_succ, List.map_append, List.sum_append]
      by_cases h : q < m
      · rw [ih h]
        simp only [List.map_cons, List.map_nil, List.sum_cons, List.sum_nil]
        rw [if_neg (by omega)]
        omega
      · have hqm : q = m := by omega
        subst hqm
        have hz : ((List.range q).map (fun p => if p = q then 1 else 0)).sum = 0 := by
          apply List.sum_eq_zero
          intro x hx
          rcases List.mem_map.mp hx with ⟨p, hp, hval⟩
          rw [List.mem_range] at hp
          rw [if_neg (by omega)] at hval
          omega
        rw [hz]
        simp

/-- Fiberwise counting: summing, over all fibers below a bound, the count
of list elements sent to that fiber equals the count of elements sent to
any fiber at all. -/
theorem sum_fibers (m : Nat) (v : Nat → Bool) (g : Nat → Option Nat)
    (hg : ∀ i q, g i = some q → q < m) :
    ∀ l : List Nat,
      ((List.range m).map
        (fun p => (l.filter (fun i => v i && (g i == some p))).length)).sum
        = (l.filter (fun i => v i && (g i).isSome)).length := by
  intro l
  induction l with
  | nil => simp
  | cons a l ih =>
      by_cases hv : v a = true
      · rcases hga : g a with _ | q
        · have hmap : ∀ p ∈ List.range m,
              ((a :: l).filter (fun i => v i && (g i == some p))).length
                = (l.filter (fun i => v i && (g i == some p))).length := by
            intro p _
            rw [List.filter_cons, hga]
            simp
          rw [List.map_congr_left (fun p hp => hmap p hp), ih, List.filter_cons, hga]
          simp
        · have hq := hg a q hga
          have hmap : ∀ p ∈ List.range m,
              ((a :: l).filter (fun i => v i && (g i == some p))).length
                = (l.filter (fun i => v i && (g i == some p))).length
                  + (if p = q then 1 else 0) := by
            intro p _
            rw [List.filter_cons, hga]
            by_cases hpq : p = q
            · subst hpq
              simp [hv]
            · have hne : ((some q : Option Nat) == some p) = false := by
                rw [beq_eq_false_iff_ne]
                intro heq
                exact hpq (by injection heq with h; omega)
              simp [hne, hpq]
          rw [List.map_congr_left (fun p hp => hmap p hp), List.sum_map_add, ih,
            sum_indicator q m hq, List.filter_cons, hga]
          simp [hv]
      · have hmap : ∀ p ∈ List.range m,
            ((a :: l).filter (fun i => v i && (g i == some p))).length
              = (l.filter (fun i => v i && (g i == some p))).length := by
          intro p _
          rw [List.filter_cons]
          simp [hv]
        rw [List.map_congr_left (fun p hp => hmap p hp), ih, List.filter_cons]
        simp [hv]

/-- A successful paragraph attribution lands below the section count. -/
theorem attrib_some_lt :
    ∀ (secs : List (Nat × Nat)) (i p : Nat), attrib secs i = some p → p < secs.length := by
  intro secs
  induction secs with
  | nil => intro i p h; exact absurd h (by rw [attrib]; simp)
  | cons s rest ih =>
      intro i p h
      rw [attrib] at h
      split_ifs at h with hs
      · injection h with h
        rw [← h]
        simp
      · rcases Option.map_eq_some'.mp h with ⟨q, hq, hpq⟩
        have := ih i q hq
        rw [List.length_cons]
        omega

/-- Every position spanned by a section chain is attributed to some
paragraph. -/
theorem attrib_isSome_of_chain :
    ∀ {secs : List (Nat × Nat)} {a b : Nat}, IsChain secs a b →
      ∀ i, a ≤ i → i < b → (attrib secs i).isSome = true := by
  intro secs
  induction secs with
  | nil =>
      intro a b h i h1 h2
      rw [h] at h1
      omega
  | cons s rest ih =>
      intro a b h i h1 h2
      rcases h with ⟨hs, hlt, hch⟩
      rw [attrib]
      by_cases hin : s.1 ≤ i ∧ i < s.2
      · rw [if_pos hin]
        rfl
      · rw [if_neg hin]
        have h2' : s.2 ≤ i := by omega
        have := ih hch i h2' h2
        rcases Option.isSome_iff_exists.mp this with ⟨q, hq⟩
        rw [hq]
        rfl

/-- C1: the hits labeled Personality, Anomalous and Residual sum to the
total cluster-hit count, both at corpus level and when the per-section
label counts are summed over all sections. -/
theorem label_counts_partition (voidSet persSet techSet : List String)
    (input : List Char) (window : Nat) :
    (labelCount (tokenize voidSet persSet input).toks techSet window 'P'
      + labelCount (tokenize voidSet persSet input).toks techSet window 'A'
      + labelCount (tokenize voidSet persSet input).toks techSet window 'R'
      = total_void (tokenize voidSet persSet input).toks)
    ∧ ((List.range (finalSections (tokenize voidSet persSet input)).length).map
        (fun p =>
          paraLabelCount (tokenize voidSet persSet input).toks techSet window
            (finalSections (tokenize voidSet persSet input)) p 'P'
          + paraLabelCount (tokenize voidSet persSet input).toks techSet window
            (finalSections (tokenize voidSet persSet input)) p 'A'
          + paraLabelCount (tokenize voidSet persSet input).toks techSet window
            (finalSections (tokenize voidSet persSet input)) p 'R')).sum
      = total_void (tokenize voidSet persSet input).toks := by
  have hcl : ∀ i, classifyAt (tokenize voidSet persSet input).toks techSet window i = 'P'
      ∨ classifyAt (tokenize voidSet persSet input).toks techSet window i = 'A'
      ∨ classifyAt (tokenize voidSet persSet input).toks techSet window i = 'R' :=
    fun i => classifyAt_cases _ techSet window i
  constructor
  · rw [labelCount, labelCount, labelCount, total_void]
    exact tri_split _ _ hcl _
  · have htri : ∀ p ∈ List.range (finalSections (tokenize voidSet persSet input)).length,
        paraLabelCount (tokenize voidSet persSet input).toks techSet window
          (finalSections (tokenize voidSet persSet input)) p 'P'
        + paraLabelCount (tokenize voidSet persSet input).toks techSet window
          (finalSections (tokenize voidSet persSet input)) p 'A'
        + paraLabelCount (tokenize voidSet persSet input).toks techSet window
          (finalSections (tokenize voidSet persSet input)) p 'R'
        = para_void_hits (tokenize voidSet persSet input).toks techSet window
            (finalSections (tokenize voidSet persSet input)) p := by
      intro p _
      rw [paraLabelCount, paraLabelCount, paraLabelCount, para_void_hits]
      exact tri_split _ _ hcl _
    rw [List.map_congr_left htri]
    have hfib := sum_fibers (finalSections (tokenize voidSet persSet input)).length
      (fun i => ((tokenize voidSet persSet input).toks.getD i default).is_void)
      (fun i => attrib (finalSections (tokenize voidSet persSet input)) i)
      (fun i q hq => attrib_some_lt _ i q hq)
      (List.range (tokenize voidSet persSet input).toks.length)
    have hcover : ∀ i ∈ List.range (tokenize voidSet persSet input).toks.length,
        (((tokenize voidSet persSet input).toks.getD i default).is_void &&
          (attrib (finalSections (tokenize voidSet persSet input)) i).isSome)
          = ((tokenize voidSet persSet input).toks.getD i default).is_void := by
      intro i hi
      rw [List.mem_range] at hi
      rw [attrib_isSome_of_chain (tokenize_sections_chain voidSet persSet input) i
        (Nat.zero_le i) hi, Bool.and_true]
    calc ((List.range (finalSections (tokenize voidSet persSet input)).length).map
          (fun p => para_void_hits (tokenize voidSet persSet input).toks techSet window
            (finalSections (tokenize voidSet persSet input)) p)).sum
        = ((List.range (tokenize voidSet persSet input).toks.length).filter
            (fun i => ((tokenize voidSet persSet input).toks.getD i default).is_void &&
              (attrib (finalSections (tokenize voidSet persSet input)) i).isSome)).length := by
          rw [← hfib]
          rfl
      _ = total_void (tokenize voidSet persSet input).toks := by
          rw [total_void, List.filter_congr hcover]

/-- A word absent from the table keys makes the first scan of `record_hit`
fail. -/
theorem bump_none : ∀ (t : List (String × Nat)) (w : String),
    ¬(w ∈ keys t) → bump t w = none := by
  intro t
  induction t with
  | nil => intro w _; rfl
  | cons e rest ih =>
      intro w hw
      rw [keys, List.map_cons, List.mem_cons] at hw
      push_neg at hw
      rw [bump, if_neg (by exact fun h => hw.1 h.symm), ih w (by rw [keys]; exact hw.2)]
      rfl

/-- A word present in the table keys is incremented by the first scan of
`record_hit`: the total count grows by one while keys and size stay. -/
theorem bump_some : ∀ (t : List (String × Nat)) (w : String),
    w ∈ keys t → ∃ t', bump t w = some t' ∧
      sumCounts t' = sumCounts t + 1 ∧ keys t' = keys t ∧ t'.length = t.length := by
  intro t
  induction t with
  | nil => intro w hw; exact absurd hw (by rw [keys]; simp)
  | cons e rest ih =>
      intro w hw
      by_cases he : e.1 = w
      · refine ⟨(e.1, e.2 + 1) :: rest, ?_, ?_, ?_, ?_⟩
        · rw [bump, if_pos he]
        · simp only [sumCounts, List.map_cons, List.sum_cons]
          omega
        · simp only [keys, List.map_cons]
        · simp
      · rw [keys, List.map_cons, List.mem_cons] at hw
        rcases hw with hw | hw
        · exact absurd hw.symm he
        · rcases ih w (by rw [keys]; exact hw) with ⟨t', h1, h2, h3, h4⟩
          refine ⟨e :: t', ?_, ?_, ?_, ?_⟩
          · rw [bump, if_neg he, h1]
            rfl
          · simp only [sumCounts, List.map_cons, List.sum_cons] at h2 ⊢
            omega
          · simp only [keys, List.map_cons] at h3 ⊢
            rw [h3]
          · simp [h4]

/-- Sum of the frequency table after recording a word stream, as long as
the table capacity is never exhausted: the number of distinct not-yet-keyed
words fits in the remaining room. -/
theorem recordAll_sum : ∀ (ws : List String) (t : List (String × Nat)),
    (keys t).Nodup →
    t.length + ((ws.filter (fun x => decide (¬x ∈ keys t))).toFinset).card ≤ MAX_WORDLIST →
    sumCounts (ws.foldl record_hit t) = sumCounts t + ws.length := by
  intro ws
  induction ws with
  | nil => intro t _ _; simp
  | cons w ws ih =>
      intro t hnd hbound
      rw [List.foldl_cons]
      by_cases hk : w ∈ keys t
      · rcases bump_some t w hk with ⟨t', h1, h2, h3, h4⟩
        have hrec : record_hit t w = t' := by rw [record_hit, h1]
        rw [hrec]
        have hsub : ((ws.filter (fun x => decide (¬x ∈ keys t'))).toFinset).card ≤
            (((w :: ws).filter (fun x => decide (¬x ∈ keys t))).toFinset).card := by
          apply Finset.card_le_card
          intro x hx
          rw [List.mem_toFinset, List.mem_filter] at hx ⊢
          rw [h3] at hx
          refine ⟨List.mem_cons_of_mem w hx.1, hx.2⟩
        have := ih t' (h3 ▸ hnd) (by omega)
        rw [this, h2, List.length_cons]
        omega
      · have hnone := bump_none t w hk
        have hwf : w ∈ (w :: ws).filter (fun x => decide (¬x ∈ keys t)) := by
          rw [List.mem_filter]
          exact ⟨List.mem_cons_self w ws, by simpa using hk⟩
        have hcard1 : 1 ≤ (((w :: ws).filter (fun x => decide (¬x ∈ keys t))).toFinset).card := by
          apply Finset.card_pos.mpr
          exact ⟨w, List.mem_toFinset.mpr hwf⟩
        have hlt : t.length < MAX_WORDLIST := by omega
        have hrec : record_hit t w = t ++ [(w, 1)] := by
          rw [record_hit, hnone, if_pos hlt]
        rw [hrec]
        have hkeys : keys (t ++ [(w, 1)]) = keys t ++ [w] := by
          rw [keys, keys, List.map_append]
          rfl
        have hnd' : (keys (t ++ [(w, 1)])).Nodup := by
          rw [hkeys]
          rw [List.nodup_append]
          exact ⟨hnd, List.nodup_singleton w, by simpa using hk⟩
        have hfilter : (ws.filter (fun x => decide (¬x ∈ keys (t ++ [(w, 1)])))).toFinset
            = ((ws.filter (fun x => decide (¬x ∈ keys t))).toFinset).erase w := by
          ext x
          rw [Finset.mem_erase, List.mem_toFinset, List.mem_toFinset,
            List.mem_filter, List.mem_filter, hkeys]
          simp only [decide_eq_true_eq, List.mem_append, List.mem_singleton]
          constructor
          · rintro ⟨hx1, hx2⟩
            push_neg at hx2
            exact ⟨hx2.2, hx1, by simpa using hx2.1⟩
          · rintro ⟨hne, hx1, hx2⟩
            refine ⟨hx1, ?_⟩
            push_neg
            exact ⟨hx2, hne⟩
        have hstep : (((w :: ws).filter (fun x => decide (¬x ∈ keys t))).toFinset).card
            = (((ws.filter (fun x => decide (¬x ∈ keys t))).toFinset).erase w).card + 1 := by
          rw [List.filter_cons, if_pos (by simpa using hk), List.toFinset_cons]
          by_cases hwin : w ∈ (ws.filter (fun x => decide (¬x ∈ keys t))).toFinset
          · rw [Finset.insert_eq_self.mpr hwin, Finset.card_erase_of_mem hwin]
            have := Finset.card_pos.mpr ⟨w, hwin⟩
            omega
          · rw [Finset.card_insert_of_not_mem hwin, Finset.erase_eq_of_not_mem hwin]
        have hbound' : (t ++ [(w, 1)]).length +
            ((ws.filter (fun x => decide (¬x ∈ keys (t ++ [(w, 1)])))).toFinset).card
              ≤ MAX_WORDLIST := by
          rw [List.length_append, List.length_singleton, hfilter]
          omega
        rw [ih (t ++ [(w, 1)]) hnd' hbound']
        simp only [sumCounts, List.map_append, List.sum_append, List.map_cons,
          List.map_nil, List.sum_cons, List.sum_nil, List.length_cons]
        omega

/-- Recording a stream of pairwise distinct fresh words fills the table up
to its capacity and silently drops the overflow. -/
theorem recordAll_fresh : ∀ (ws : List String) (t : List (String × Nat)),
    ws.Nodup → (∀ w ∈ ws, ¬w ∈ keys t) →
    sumCounts (ws.foldl record_hit t) =
      sumCounts t + min ws.length (MAX_WORDLIST - t.length) := by
  intro ws
  induction ws with
  | nil => intro t _ _; simp
  | cons w ws ih =>
      intro t hnd hfresh
      rw [List.foldl_cons]
      have hnone := bump_none t w (hfresh w (List.mem_cons_self w ws))
      by_cases hlt : t.length < MAX_WORDLIST
      · have hrec : record_hit t w = t ++ [(w, 1)] := by
          rw [record_hit, hnone, if_pos hlt]
        rw [hrec]
        have hkeys : keys (t ++ [(w, 1)]) = keys t ++ [w] := by
          rw [keys, keys, List.map_append]
          rfl
        have hfresh' : ∀ x ∈ ws, ¬x ∈ keys (t ++ [(w, 1)]) := by
          intro x hx
          rw [hkeys, List.mem_append, List.mem_singleton]
          push_neg
          refine ⟨hfresh x (List.mem_cons_of_mem w hx), ?_⟩
          intro heq
          subst heq
          exact (List.nodup_cons.mp hnd).1 hx
        rw [ih (t ++ [(w, 1)]) (List.nodup_cons.mp hnd).2 hfresh']
        simp only [sumCounts, List.map_append, List.sum_append, List.map_cons,
          List.map_nil, List.sum_cons, List.sum_nil, List.length_append,
          List.length_singleton, List.length_cons, List.length_nil]
        omega
      · have hrec : record_hit t w = t := by
          rw [record_hit, hnone, if_neg hlt]
        rw [hrec]
        rw [ih t (List.nodup_cons.mp hnd).2 (fun x hx => hfresh x (List.mem_cons_of_mem w hx))]
        have : MAX_WORDLIST - t.length = 0 := by omega
        rw [this]
        simp

/-- The 529 pair words are pairwise distinct. -/
theorem pairWords_nodup : pairWords.Nodup := by
  rw [pairWords]
  apply List.Nodup.map
  · rintro ⟨a1, a2⟩ ⟨b1, b2⟩ h
    have hd := congrArg String.data h
    simp only at hd
    injection hd with h1 h2
    injection h2 with h2 _
    simp [h1, h2]
  · exact List.Nodup.product (by decide) (by decide)

/-- C9 (counterexample): a corpus whose cluster-hit stream consists of
`MAX_WORDLIST + 1` pairwise distinct cluster terms (two-letter lowercase
words, as a custom `-w` wordlist permits) records only `MAX_WORDLIST`
occurrences in the frequency table: the summed counts fall short of the
total cluster-hit count. -/
theorem frequency_table_counterexample :
    words513.length = MAX_WORDLIST + 1
    ∧ sumCounts (recordAll words513) = MAX_WORDLIST
    ∧ sumCounts (recordAll words513) ≠ words513.length := by
  have hlen : words513.length = MAX_WORDLIST + 1 := by
    rw [words513, List.length_take, pairWords, List.length_map,
      show letters23.product letters23 = letters23 ×ˢ letters23 from rfl,
      List.length_product]
    rw [MAX_WORDLIST]
    decide
  have hnd : words513.Nodup :=
    List.Nodup.sublist (List.take_sublist _ _) pairWords_nodup
  have hsum : sumCounts (recordAll words513) = MAX_WORDLIST := by
    rw [recordAll, recordAll_fresh words513 [] hnd (by intro w _; rw [keys]; simp)]
    rw [hlen, sumCounts]
    simp
  exact ⟨hlen, hsum, by rw [hsum, hlen]; omega⟩

/-- C9 (amended): for every stream of cluster-hit words containing at most
`MAX_WORDLIST` distinct terms (always the case with the default cluster of
about 110 terms), the per-term frequency table counts sum to the total
cluster-hit count; beyond that many distinct terms, fresh terms are
silently not recorded. -/
theorem frequency_table_roundtrip (ws : List String)
    (hbound : (ws.toFinset).card ≤ MAX_WORDLIST) :
    sumCounts (recordAll ws) = ws.length := by
  rw [recordAll]
  have h := recordAll_sum ws [] (by rw [keys]; simp) ?_
  · rw [h, sumCounts]
    simp
  · have : (ws.filter (fun x => decide (¬x ∈ keys ([] : List (String × Nat))))) = ws := by
      apply List.filter_eq_self.mpr
      intro a _
      rw [keys]
      simp
    rw [this]
    simpa using hbound

/-- Witness for the frequency-table round trip on a three-hit stream with
two distinct terms. -/
theorem frequency_table_roundtrip_witness :
    ((["void", "dark", "void"] : List String).toFinset).card ≤ MAX_WORDLIST
    ∧ sumCounts (recordAll (["void", "dark", "void"] : List String))
        = (["void", "dark", "void"] : List String).length :=
  ⟨by decide, frequency_table_roundtrip (["void", "dark", "void"] : List String) (by decide)⟩

/-- Lower bound on the exponential factor of the normal-CDF approximation
via an order-8 Taylor partial sum. -/
theorem exp_u2_lower : (0.49059 : ℝ) < Real.exp (-(0.71212136 : ℝ)) := by
  have habs : |(-(0.71212136 : ℝ))| = 0.71212136 := by
    rw [abs_neg, abs_of_nonneg]
    norm_num
  have h := Real.exp_bound (x := -(0.71212136 : ℝ)) (by rw [habs]; norm_num)
    (n := 8) (by norm_num)
  rw [habs] at h
  rcases abs_le.mp h with ⟨h1, _⟩
  have hsum : (0.4906008 : ℝ) <
      ∑ i ∈ Finset.range 8, (-(0.71212136 : ℝ)) ^ i / (Nat.factorial i) := by
    norm_num [Finset.sum_range_succ, show Nat.factorial 0 = 1 from rfl,
      show Nat.factorial 1 = 1 from rfl, show Nat.factorial 2 = 2 from rfl,
      show Nat.factorial 3 = 6 from rfl, show Nat.factorial 4 = 24 from rfl,
      show Nat.factorial 5 = 120 from rfl, show Nat.factorial 6 = 720 from rfl,
      show Nat.factorial 7 = 5040 from rfl]
  have herr : (0.71212136 : ℝ) ^ 8 * ((Nat.succ 8) / ((Nat.factorial 8) * 8))
      < 0.0000019 := by
    norm_num [show Nat.factorial 8 = 40320 from rfl, Nat.succ_eq_add_one]
  linarith

/-- Upper bound on the exponential factor of the normal-CDF approximation
via an order-8 Taylor partial sum. -/
theorem exp_u1_upper : Real.exp (-(0.71212111 : ℝ)) < (0.49062 : ℝ) := by
  have habs : |(-(0.71212111 : ℝ))| = 0.71212111 := by
    rw [abs_neg, abs_of_nonneg]
    norm_num
  have h := Real.exp_bound (x := -(0.71212111 : ℝ)) (by rw [habs]; norm_num)
    (n := 8) (by norm_num)
  rw [habs] at h
  rcases abs_le.mp h with ⟨_, h2⟩
  have hsum : (∑ i ∈ Finset.range 8, (-(0.71212111 : ℝ)) ^ i / (Nat.factorial i))
      < (0.4906010 : ℝ) := by
    norm_num [Finset.sum_range_succ, show Nat.factorial 0 = 1 from rfl,
      show Nat.factorial 1 = 1 from rfl, show Nat.factorial 2 = 2 from rfl,
      show Nat.factorial 3 = 6 from rfl, show Nat.factorial 4 = 24 from rfl,
      show Nat.factorial 5 = 120 from rfl, show Nat.factorial 6 = 720 from rfl,
      show Nat.factorial 7 = 5040 from rfl]
  have herr : (0.71212111 : ℝ) ^ 8 * ((Nat.succ 8) / ((Nat.factorial 8) * 8))
      < 0.0000019 := by
    norm_num [show Nat.factorial 8 = 40320 from rfl, Nat.succ_eq_add_one]
  linarith

/-- C7: with baseline 1/100, 141 total tokens and 0 raw hits, the z-score
of the C implementation is within 0.01 of -1.19 and the one-tailed p-value
`1 - norm_cdf z` is within 0.001 of 0.883. -/
theorem scenarioA_statistics :
    |z_test 0 141 (1 / 100) - (-1.19)| < 1 / 100
    ∧ |(1 - norm_cdf (z_test 0 141 (1 / 100))) - 0.883| < 1 / 1000 := by
  have hv : ((1 / 100 : ℝ) * (1 - 1 / 100) / ((141 : Nat) : ℝ)) = 33 / 470000 := by
    norm_num
  have ha : (0.0083793058 : ℝ) <
      Real.sqrt ((1 / 100 : ℝ) * (1 - 1 / 100) / ((141 : Nat) : ℝ)) := by
    rw [hv]
    rw [show ((33 : ℝ) / 470000) = 33 / 470000 from rfl]
    exact (Real.lt_sqrt (by norm_num)).mpr (by norm_num)
  have hb : Real.sqrt ((1 / 100 : ℝ) * (1 - 1 / 100) / ((141 : Nat) : ℝ))
      < 0.0083793059 := by
    rw [hv]
    exact (Real.sqrt_lt' (by norm_num)).mpr (by norm_num)
  have hS0 : (0 : ℝ) < Real.sqrt ((1 / 100 : ℝ) * (1 - 1 / 100) / ((141 : Nat) : ℝ)) :=
    lt_trans (by norm_num) ha
  have hse : ¬(Real.sqrt ((1 / 100 : ℝ) * (1 - 1 / 100) / ((141 : Nat) : ℝ))
      < (1e-15 : ℝ)) := by
    push_neg
    calc (1e-15 : ℝ) ≤ 0.0083793058 := by norm_num
      _ ≤ _ := le_of_lt ha
  have hz : z_test 0 141 (1 / 100) =
      -(1 / 100) / Real.sqrt ((1 / 100 : ℝ) * (1 - 1 / 100) / ((141 : Nat) : ℝ)) := by
    simp only [z_test, if_neg hse]
    norm_num
  have hz_lo : (-1.1934163 : ℝ) < z_test 0 141 (1 / 100) := by
    rw [hz]
    have h1 : (1 / 100 : ℝ) / Real.sqrt ((1 / 100 : ℝ) * (1 - 1 / 100) / ((141 : Nat) : ℝ))
        < (1 / 100 : ℝ) / 0.0083793058 :=
      div_lt_div_of_pos_left (by norm_num) (by norm_num) ha
    have h2 : (1 / 100 : ℝ) / 0.0083793058 < 1.1934163 := by norm_num
    rw [neg_div]
    linarith
  have hz_hi : z_test 0 141 (1 / 100) < (-1.1934162 : ℝ) := by
    rw [hz]
    have h1 : (1 / 100 : ℝ) / 0.0083793059
        < (1 / 100 : ℝ) / Real.sqrt ((1 / 100 : ℝ) * (1 - 1 / 100) / ((141 : Nat) : ℝ)) :=
      div_lt_div_of_pos_left (by norm_num) hS0 hb
    have h2 : (1.1934162 : ℝ) < (1 / 100 : ℝ) / 0.0083793059 := by norm_num
    rw [neg_div]
    linarith
  constructor
  · rw [abs_lt]
    constructor <;> linarith
  · have h8a : ¬(z_test 0 141 (1 / 100) < -8) := by push_neg; linarith
    have h8b : ¬((8 : ℝ) < z_test 0 141 (1 / 100)) := by push_neg; linarith
    have hzneg : z_test 0 141 (1 / 100) < 0 := by linarith
    simp only [norm_cdf, if_neg h8a, if_neg h8b, if_pos hzneg]
    have hy1 : (1.1934162 : ℝ) < -z_test 0 141 (1 / 100) := by linarith
    have hy2 : -z_test 0 141 (1 / 100) < (1.1934163 : ℝ) := by linarith
    have hy0 : (0 : ℝ) < -z_test 0 141 (1 / 100) := by linarith
    have hD0 : (0 : ℝ) < 1 + 0.2316419 * -z_test 0 141 (1 / 100) := by
      linarith only [hy0]
    have hT1 : (0.78342569 : ℝ) < 1 / (1 + 0.2316419 * -z_test 0 141 (1 / 100)) := by
      have hd : 1 + 0.2316419 * -z_test 0 141 (1 / 100)
          < 1 + 0.2316419 * (1.1934163 : ℝ) := by linarith only [hy2]
      have h2 := one_div_le_one_div_of_le hD0 (le_of_lt hd)
      have h3 : (0.78342569 : ℝ) < 1 / (1 + 0.2316419 * (1.1934163 : ℝ)) := by norm_num
      linarith
    have hT2 : 1 / (1 + 0.2316419 * -z_test 0 141 (1 / 100)) < (0.78342573 : ℝ) := by
      have hd : 1 + 0.2316419 * (1.1934162 : ℝ)
          < 1 + 0.2316419 * -z_test 0 141 (1 / 100) := by linarith only [hy1]
      have h2 := one_div_lt_one_div_of_lt (by norm_num) hd
      have h3 : 1 / (1 + 0.2316419 * (1.1934162 : ℝ)) < (0.78342573 : ℝ) := by norm_num
      linarith
    have hT0 : (0 : ℝ) < 1 / (1 + 0.2316419 * -z_test 0 141 (1 / 100)) := by
      linarith
    have hp2l := pow_lt_pow_left hT1 (by norm_num) (n := 2) (by norm_num)
    have hp2u := pow_lt_pow_left hT2 (le_of_lt hT0) (n := 2) (by norm_num)
    have hp3l := pow_lt_pow_left hT1 (by norm_num) (n := 3) (by norm_num)
    have hp3u := pow_lt_pow_left hT2 (le_of_lt hT0) (n := 3) (by norm_num)
    have hp4l := pow_lt_pow_left hT1 (by norm_num) (n := 4) (by norm_num)
    have hp4u := pow_lt_pow_left hT2 (le_of_lt hT0) (n := 4) (by norm_num)
    have hp5l := pow_lt_pow_left hT1 (by norm_num) (n := 5) (by norm_num)
    have hp5u := pow_lt_pow_left hT2 (le_of_lt hT0) (n := 5) (by norm_num)
    have hq_lo : (0.5944818 : ℝ) <
        0.319381530 * (1 / (1 + 0.2316419 * -z_test 0 141 (1 / 100)))
        - 0.356563782 * (1 / (1 + 0.2316419 * -z_test 0 141 (1 / 100))) ^ 2
        + 1.781477937 * (1 / (1 + 0.2316419 * -z_test 0 141 (1 / 100))) ^ 3
        - 1.821255978 * (1 / (1 + 0.2316419 * -z_test 0 141 (1 / 100))) ^ 4
        + 1.330274429 * (1 / (1 + 0.2316419 * -z_test 0 141 (1 / 100))) ^ 5 := by
      have hnum : (0.5944818 : ℝ) < 0.319381530 * 0.78342569 - 0.356563782 * 0.78342573 ^ 2
          + 1.781477937 * 0.78342569 ^ 3 - 1.821255978 * 0.78342573 ^ 4
          + 1.330274429 * 0.78342569 ^ 5 := by norm_num
      linarith only [hT1, hT2, hp2l, hp2u, hp3l, hp3u, hp4l, hp4u, hp5l, hp5u, hnum]
    have hq_hi :
        0.319381530 * (1 / (1 + 0.2316419 * -z_test 0 141 (1 / 100)))
        - 0.356563782 * (1 / (1 + 0.2316419 * -z_test 0 141 (1 / 100))) ^ 2
        + 1.781477937 * (1 / (1 + 0.2316419 * -z_test 0 141 (1 / 100))) ^ 3
        - 1.821255978 * (1 / (1 + 0.2316419 * -z_test 0 141 (1 / 100))) ^ 4
        + 1.330274429 * (1 / (1 + 0.2316419 * -z_test 0 141 (1 / 100))) ^ 5
          < (0.5944823 : ℝ) := by
      have hnum : (0.319381530 : ℝ) * 0.78342573 - 0.356563782 * 0.78342569 ^ 2
          + 1.781477937 * 0.78342573 ^ 3 - 1.821255978 * 0.78342569 ^ 4
          + 1.330274429 * 0.78342573 ^ 5 < 0.5944823 := by norm_num
      linarith only [hT1, hT2, hp2l, hp2u, hp3l, hp3u, hp4l, hp4u, hp5l, hp5u, hnum]
    have hYY2 : -z_test 0 141 (1 / 100) * -z_test 0 141 (1 / 100)
        < (1.1934163 : ℝ) * 1.1934163 := mul_lt_mul'' hy2 hy2 (le_of_lt hy0) (le_of_lt hy0)
    have hYY1 : (1.1934162 : ℝ) * 1.1934162
        < -z_test 0 141 (1 / 100) * -z_test 0 141 (1 / 100) :=
      mul_lt_mul'' hy1 hy1 (by norm_num) (by norm_num)
    have hE_lo : Real.exp (-(0.71212136 : ℝ))
        < Real.exp (-(0.5) * -z_test 0 141 (1 / 100) * -z_test 0 141 (1 / 100)) := by
      apply Real.exp_lt_exp.mpr
      linarith only [hYY2]
    have hE_hi : Real.exp (-(0.5) * -z_test 0 141 (1 / 100) * -z_test 0 141 (1 / 100))
        < Real.exp (-(0.71212111 : ℝ)) := by
      apply Real.exp_lt_exp.mpr
      linarith only [hYY1]
    have hE1 : (0.49059 : ℝ)
        < Real.exp (-(0.5) * -z_test 0 141 (1 / 100) * -z_test 0 141 (1 / 100)) :=
      lt_trans exp_u2_lower hE_lo
    have hE2 : Real.exp (-(0.5) * -z_test 0 141 (1 / 100) * -z_test 0 141 (1 / 100))
        < (0.49062 : ℝ) := lt_trans hE_hi exp_u1_upper
    have hE0 : (0 : ℝ)
        < Real.exp (-(0.5) * -z_test 0 141 (1 / 100) * -z_test 0 141 (1 / 100)) :=
      Real.exp_pos _
    have hQE_lo : (0.5944818 : ℝ) * 0.49059 <
        (0.319381530 * (1 / (1 + 0.2316419 * -z_test 0 141 (1 / 100)))
        - 0.356563782 * (1 / (1 + 0.2316419 * -z_test 0 141 (1 / 100))) ^ 2
        + 1.781477937 * (1 / (1 + 0.2316419 * -z_test 0 141 (1 / 100))) ^ 3
        - 1.821255978 * (1 / (1 + 0.2316419 * -z_test 0 141 (1 / 100))) ^ 4
        + 1.330274429 * (1 / (1 + 0.2316419 * -z_test 0 141 (1 / 100))) ^ 5)
        * Real.exp (-(0.5) * -z_test 0 141 (1 / 100) * -z_test 0 141 (1 / 100)) :=
      mul_lt_mul'' hq_lo hE1 (by norm_num) (by norm_num)
    have hQE_hi :
        (0.319381530 * (1 / (1 + 0.2316419 * -z_test 0 141 (1 / 100)))
        - 0.356563782 * (1 / (1 + 0.2316419 * -z_test 0 141 (1 / 100))) ^ 2
        + 1.781477937 * (1 / (1 + 0.2316419 * -z_test 0 141 (1 / 100))) ^ 3
        - 1.821255978 * (1 / (1 + 0.2316419 * -z_test 0 141 (1 / 100))) ^ 4
        + 1.330274429 * (1 / (1 + 0.2316419 * -z_test 0 141 (1 / 100))) ^ 5)
        * Real.exp (-(0.5) * -z_test 0 141 (1 / 100) * -z_test 0 141 (1 / 100))
          < (0.5944823 : ℝ) * 0.49062 :=
      mul_lt_mul'' hq_hi hE2 (by linarith only [hq_lo]) (by linarith only [hE1])
    have hc0 : (0 : ℝ) < 0.3989422804014327 := by norm_num
    have hs_hi := mul_lt_mul_of_pos_right hQE_hi hc0
    have hs_lo := mul_lt_mul_of_pos_right hQE_lo hc0
    have hnum2 : (0.5944823 : ℝ) * 0.49062 * 0.3989422804014327 < 0.117 := by norm_num
    have hnum1 : (0.116 : ℝ) < 0.5944818 * 0.49059 * 0.3989422804014327 := by norm_num
    rw [abs_lt]
    constructor <;> linarith only [hs_hi, hs_lo, hnum1, hnum2]

end VoidAnalysis
